import Mathlib

/-!
Verification development for the rusty_bash command execution engine.

The definitions below are a shallow embedding of the Rust sources:
  * `parse`            — the parse dispatcher, src/elements/command.rs, fn parse
  * `exec`             — the trait-default `Command::exec`, src/elements/command.rs
  * `mainIteration`    — one iteration of the interactive loop, src/main.rs, fn main
  * `read_line_terminal` and the `Writer` operations — src/feeder/term.rs

Machine integers are modelled as `Int`/`Nat`; OS effects (fork, close, eprintln,
exit, panic) are modelled as an explicit event trace; mutable arguments
(`&mut Feeder`, `&mut Writer`) are threaded as explicit state.
-/

/-- The input cursor handed to the variant parsers (`&mut Feeder` in the
source).  Only its identity matters to the dispatcher-level claims, so it is
modelled as the remaining input characters. -/
structure Feeder where
  chars : List Char
deriving DecidableEq, Repr

/-- The eight variant parse functions the dispatcher of
src/elements/command.rs tries, as explicit-state functions.  In the source a
parser mutates the `&mut Feeder`; here it returns the possibly-updated feeder
next to its optional result.  `CommandParen::parse` and
`CommandDoubleParen::parse` take an extra boolean (the dispatcher passes
`false`).  The `ShellCore` argument the source also passes does not affect the
dispatch logic and is omitted from the parser state. -/
structure VariantParsers (α β γ δ ε ζ η θ : Type) where
  commandIf : Feeder → Option α × Feeder
  commandWhile : Feeder → Option β × Feeder
  commandCase : Feeder → Option γ × Feeder
  commandParen : Bool → Feeder → Option δ × Feeder
  commandDoubleParen : Bool → Feeder → Option ε × Feeder
  commandBrace : Feeder → Option ζ × Feeder
  functionDefinition : Feeder → Option η × Feeder
  simpleCommand : Feeder → Option θ × Feeder

/-- The boxed result of the dispatcher (`Box<dyn Command>` in the source): one
constructor per concrete command variant. -/
inductive BoxedCommand (α β γ δ ε ζ η θ : Type) : Type
  | cIf : α → BoxedCommand α β γ δ ε ζ η θ
  | cWhile : β → BoxedCommand α β γ δ ε ζ η θ
  | cCase : γ → BoxedCommand α β γ δ ε ζ η θ
  | cParen : δ → BoxedCommand α β γ δ ε ζ η θ
  | cDoubleParen : ε → BoxedCommand α β γ δ ε ζ η θ
  | cBrace : ζ → BoxedCommand α β γ δ ε ζ η θ
  | cFunctionDefinition : η → BoxedCommand α β γ δ ε ζ η θ
  | cSimple : θ → BoxedCommand α β γ δ ε ζ η θ
deriving DecidableEq, Repr

/-- src/elements/command.rs, `pub fn parse`: try the variant parsers in the
fixed source order (if, while, case, paren, double-paren, brace, function
definition, simple command); the first success is boxed and returned.  The
feeder state is threaded through failing parsers exactly as the `&mut Feeder`
is in the source. -/
def parse {α β γ δ ε ζ η θ : Type} (P : VariantParsers α β γ δ ε ζ η θ)
    (text : Feeder) : Option (BoxedCommand α β γ δ ε ζ η θ) × Feeder :=
  match P.commandIf text with
  | (some a, t) => (some (BoxedCommand.cIf a), t)
  | (none, t1) =>
  match P.commandWhile t1 with
  | (some a, t) => (some (BoxedCommand.cWhile a), t)
  | (none, t2) =>
  match P.commandCase t2 with
  | (some a, t) => (some (BoxedCommand.cCase a), t)
  | (none, t3) =>
  match P.commandParen false t3 with
  | (some a, t) => (some (BoxedCommand.cParen a), t)
  | (none, t4) =>
  match P.commandDoubleParen false t4 with
  | (some a, t) => (some (BoxedCommand.cDoubleParen a), t)
  | (none, t5) =>
  match P.commandBrace t5 with
  | (some a, t) => (some (BoxedCommand.cBrace a), t)
  | (none, t6) =>
  match P.functionDefinition t6 with
  | (some a, t) => (some (BoxedCommand.cFunctionDefinition a), t)
  | (none, t7) =>
  match P.simpleCommand t7 with
  | (some a, t) => (some (BoxedCommand.cSimple a), t)
  | (none, t8) => (none, t8)

/-- A parser restores the cursor whenever it fails: the feeder coming out of a
failing call is the feeder that went in. -/
def restoresOnFail {α : Type} (p : Feeder → Option α × Feeder) : Prop :=
  ∀ f : Feeder, (p f).1 = none → (p f).2 = f

/-- All eight variant parsers, as the dispatcher invokes them, restore the
cursor on failure. -/
def allRestore {α β γ δ ε ζ η θ : Type}
    (P : VariantParsers α β γ δ ε ζ η θ) : Prop :=
  restoresOnFail P.commandIf ∧ restoresOnFail P.commandWhile ∧
  restoresOnFail P.commandCase ∧ restoresOnFail (P.commandParen false) ∧
  restoresOnFail (P.commandDoubleParen false) ∧ restoresOnFail P.commandBrace ∧
  restoresOnFail P.functionDefinition ∧ restoresOnFail P.simpleCommand

/-- Modelled from the spec: the individual variant parsers
(`CommandIf::parse`, `CommandWhile::parse`, …) live in modules that are not
among the provided sources.  Per the spec (§4.3) each such parser "may
speculatively consume delimiters/whitespace for lookahead but must restore the
cursor to its original position before returning no match".  `lookahead`
models the speculative consumption and `tryMatch` the construct recognition;
on failure the original feeder is restored. -/
def specParser {α : Type} (lookahead : Feeder → Feeder)
    (tryMatch : Feeder → Option (α × Feeder)) (f : Feeder) :
    Option α × Feeder :=
  match tryMatch (lookahead f) with
  | some (a, t) => (some a, t)
  | none => (none, f)

/-! ## The execution protocol (`Command::exec`) -/

/-- The shared interpreter state as `exec` consumes it: the variable table
(`conf.vars`, a `HashMap<String, String>` in the source) modelled as a partial
map. -/
structure ShellCore where
  vars : String → Option String

/-- Rust's `str::parse::<i32>()` on the model level: an optional leading sign,
then one or more decimal digits, value within the signed 32-bit range. -/
def parseI32 (s : String) : Option Int :=
  let p : Int × List Char :=
    match s.data with
    | '+' :: rest => (1, rest)
    | '-' :: rest => (-1, rest)
    | cs => (1, cs)
  if p.2.isEmpty then none
  else if p.2.all (fun c => c.isDigit) then
    let n : Nat := p.2.foldl (fun acc c => acc * 10 + (c.toNat - 48)) 0
    let v : Int := p.1 * (n : Int)
    if -(2 ^ 31) ≤ v ∧ v < 2 ^ 31 then some v else none
  else none

/-- Outcome of the `fork()` call, `nix::unistd::ForkResult` plus the error
case of the returned `Result`. -/
inductive ForkResult : Type
  | child : ForkResult
  | parent : Int → ForkResult
  | err : String → ForkResult
deriving DecidableEq, Repr

/-- Observable actions of one run of `Command::exec`, in program order.
`panicked` marks an abort of the whole process (a Rust `panic!`/`expect`/
`unwrap` failure or a `HashMap` index miss); `exit` is `std::process::exit`. -/
inductive Event : Type
  | forkCall : Event
  | setSignals : Event
  | setGroup : Event
  | setChildIo : Event
  | eprintln : String → Event
  | execElems : Event
  | closeFd : Nat → Event
  | exit : Int → Event
  | setPid : Int → Event
  | panicked : String → Event
deriving DecidableEq, Repr

/-- src/elements/command.rs, trait-default `Command::exec`.  Inputs that in
the source come from the trait object or the OS are explicit parameters:
`no_connection` (the node's `no_connection()`), `fr` (the result of `fork()`),
`childIo` (the result of `set_child_io`), and `closeOk` (whether `close(1)`
succeeds).  The returned list is the trace of the process running `exec` —
for `ForkResult.child` that is the child's trace from the fork onward. -/
def exec (no_connection : Bool) (fr : ForkResult)
    (childIo : Except String Unit) (conf : ShellCore) (closeOk : Bool) :
    List Event :=
  if no_connection then [Event.execElems]
  else
    Event.forkCall ::
    match fr with
    | ForkResult.child =>
      Event.setSignals :: Event.setGroup :: Event.setChildIo ::
      (match childIo with
       | Except.error s => [Event.eprintln s, Event.exit 1]
       | Except.ok _ =>
         Event.execElems ::
         if closeOk then
           Event.closeFd 1 ::
           (match conf.vars "?" with
            | none => [Event.panicked "no entry found for key"]
            | some s =>
              match parseI32 s with
              | none => [Event.panicked "called unwrap on an Err value"]
              | some n => [Event.exit n])
         else [Event.panicked "Can't close a pipe end"])
    | ForkResult.parent pid => [Event.setPid pid]
    | ForkResult.err e => [Event.panicked ("Failed to fork. " ++ e)]

/-- Whether a trace contains the `fork()` call. -/
def hasFork (evs : List Event) : Bool :=
  evs.any (fun e => match e with | Event.forkCall => true | _ => false)

/-- Whether a trace contains a run of `exec_elems`. -/
def hasExecElems (evs : List Event) : Bool :=
  evs.any (fun e => match e with | Event.execElems => true | _ => false)

/-- Whether a trace contains a `std::process::exit`. -/
def hasExit (evs : List Event) : Bool :=
  evs.any (fun e => match e with | Event.exit _ => true | _ => false)

/-- Whether a trace contains a panic (process abort). -/
def hasPanic (evs : List Event) : Bool :=
  evs.any (fun e => match e with | Event.panicked _ => true | _ => false)

/-- The process id recorded through `set_pid`, if any. -/
def recordedPid (evs : List Event) : Option Int :=
  evs.findSome? (fun e => match e with | Event.setPid p => some p | _ => none)

/-- The trace ends in a normal `exit`. -/
def endsInExit (evs : List Event) : Bool :=
  match evs.getLast? with
  | some (Event.exit _) => true
  | _ => false

/-- The trace ends in a panic. -/
def endsInPanic (evs : List Event) : Bool :=
  match evs.getLast? with
  | some (Event.panicked _) => true
  | _ => false

/-- The condition under which the child branch, after `exec_elems`, reaches a
normal `exit` rather than a panic: `close(1)` succeeds and the variable `?`
exists and parses as a signed 32-bit integer. -/
def childExitCond (conf : ShellCore) (closeOk : Bool) : Bool :=
  closeOk &&
    (match conf.vars "?" with
     | some s => (parseI32 s).isSome
     | none => false)

/-! ## The interactive loop (src/main.rs) -/

/-- Result of one iteration of the `loop` in `fn main`: either the iteration
ran the parsed command and the loop continues with the next prompt, or the
process panicked. -/
inductive IterationResult : Type
  | continued : IterationResult
  | panicked : String → IterationResult
deriving DecidableEq, Repr

/-- src/main.rs, the body of the `loop` in `fn main` after reading a line:
`match parser::top_level_element(line) { Some(ans) => ans.exec(), None =>
panic!("") }`.  A successful parse executes and the loop continues; a failed
parse panics with an empty message, terminating the interpreter. -/
def mainIteration {α : Type} (parsed : Option α) : IterationResult :=
  match parsed with
  | some _ => IterationResult.continued
  | none => IterationResult.panicked ""

/-! ## The terminal line reader (src/feeder/term.rs) -/

/-- The key events `read_line_terminal` distinguishes (`termion::event::Key`).
Enter and Tab arrive as `charKey '\n'` and `charKey '\t'`, as in the source;
every key the source's match ignores is `otherKey`. -/
inductive Key : Type
  | ctrlA : Key
  | ctrlB : Key
  | ctrlC : Key
  | ctrlE : Key
  | ctrlF : Key
  | up : Key
  | down : Key
  | left : Key
  | right : Key
  | backspace : Key
  | charKey : Char → Key
  | otherKey : Key
deriving DecidableEq, Repr

/-- The part of `Writer` (src/feeder/term.rs) that the line-content claims
depend on: the edited characters, the character cursor `ch_ptr`, and the
history cursor `hist_ptr`.  The rendering fields (`stdout`, `fold_points`,
`left_shift`, …) only produce terminal output and are not modelled. -/
structure RWriter where
  chars : List Char
  chPtr : Nat
  histPtr : Int
deriving DecidableEq, Repr

/-- Source `Writer::move_char_ptr`: move the character cursor by `inc`, clamping to
`[0, chars.len()]`. -/
def moveCharPtr (w : RWriter) (inc : Int) : RWriter :=
  let pos : Int := (w.chPtr : Int) + inc
  { w with chPtr :=
      if pos < 0 then 0
      else if pos > (w.chars.length : Int) then w.chars.length
      else pos.toNat }

/-- Source `Writer::call_history`: move the history cursor by `inc` and replace the
edit buffer with the selected entry — an entry of the in-memory `history` for
a cursor inside it, a line of `~/.bash_history` (modelled by `fileHist`, the
result of `call_history_from_file` at `-hist_ptr - 1`) for a negative cursor,
and the empty string (cursor clamped to `history.len()`) past the end.  The
cursor `ch_ptr` is set to the end of the new buffer. -/
def callHistory (fileHist : Int → String) (history : List String)
    (w : RWriter) (inc : Int) : RWriter :=
  let hp : Int := w.histPtr + inc
  let len : Int := (history.length : Int)
  if hp < 0 then
    let h := fileHist (-hp - 1)
    { chars := h.data, chPtr := h.data.length, histPtr := hp }
  else if hp < len then
    let h := history.getD hp.toNat ""
    { chars := h.data, chPtr := h.data.length, histPtr := hp }
  else
    { chars := [], chPtr := 0, histPtr := len }

/-- Source `Writer::remove` (Backspace): on a non-empty buffer, move the cursor one
step left (clamped) and remove the character at the new cursor. -/
def remove (w : RWriter) : RWriter :=
  if w.chars.length = 0 then w
  else
    let w1 := moveCharPtr w (-1)
    { w1 with chars := w1.chars.eraseIdx w1.chPtr }

/-- Source `Writer::insert`: insert a character at the cursor.  At the end of the
buffer the source appends and advances by one; in the middle it splits the
buffer, reattaches `c` followed by the tail, advances past the reattached
part, and moves back to just after `c` (`move_cursor` calls
`move_char_ptr`). -/
def insertChar (w : RWriter) (c : Char) : RWriter :=
  if w.chPtr = w.chars.length then
    moveCharPtr { w with chars := w.chars ++ [c] } 1
  else
    let remain : List Char := c :: w.chars.drop w.chPtr
    let w1 := { w with chars := w.chars.take w.chPtr ++ remain }
    let w2 := moveCharPtr w1 (remain.length : Int)
    moveCharPtr w2 (-(remain.length : Int) + 1)

/-- One dispatch of the source's `match` over a key (the arms that neither
break the loop nor return).  `Writer::tab_completion` lives in the completion
module, which is not among the provided sources; it is the abstract parameter
`tabComp`, invoked as the source does with `tab_num + 1`. -/
def applyKey (fileHist : Int → String) (tabComp : Nat → RWriter → RWriter)
    (history : List String) (tabNum : Nat) (w : RWriter) : Key → RWriter
  | Key.ctrlA => { w with chPtr := 0 }
  | Key.ctrlB => moveCharPtr w (-1)
  | Key.ctrlC => w
  | Key.ctrlE => { w with chPtr := w.chars.length }
  | Key.ctrlF => moveCharPtr w 1
  | Key.up => callHistory fileHist history w (-1)
  | Key.down => callHistory fileHist history w 1
  | Key.left => moveCharPtr w (-1)
  | Key.right => moveCharPtr w 1
  | Key.backspace => remove w
  | Key.charKey c => if c = '\t' then tabComp (tabNum + 1) w else insertChar w c
  | Key.otherKey => w

/-- Result of the key loop of `read_line_terminal`: `interrupted` is the
`Ctrl('c')` arm (buffer cleared, `return None`); `finished` is reached by the
`Char('\n')` break or by the key stream ending. -/
inductive LoopResult : Type
  | interrupted : RWriter → LoopResult
  | finished : RWriter → LoopResult
deriving DecidableEq, Repr

/-- The `for c in stdin().keys()` loop of `read_line_terminal`: Ctrl-C clears
the buffer and returns; Enter breaks; every other key is dispatched and then
`tab_num` is reset to 0 unless the key was Tab, in which case it is
incremented. -/
def readKeys (fileHist : Int → String) (tabComp : Nat → RWriter → RWriter)
    (history : List String) : List Key → RWriter → Nat → LoopResult
  | [], w, _ => LoopResult.finished w
  | Key.ctrlC :: _, w, _ => LoopResult.interrupted { w with chars := [] }
  | Key.charKey c :: ks, w, tabNum =>
    if c = '\n' then LoopResult.finished w
    else
      readKeys fileHist tabComp history ks
        (applyKey fileHist tabComp history tabNum w (Key.charKey c))
        (if c = '\t' then tabNum + 1 else 0)
  | k :: ks, w, tabNum =>
    readKeys fileHist tabComp history ks
      (applyKey fileHist tabComp history tabNum w k) 0

/-- src/feeder/term.rs, `read_line_terminal`: run the key loop starting from
an empty buffer with `hist_ptr = history.len()` and `tab_num = 0`.  On
interrupt return `None` (history untouched); otherwise collect the buffer as
`ans`, push it onto the history exactly when it is non-empty, and return
`Some(ans + "\n")`.  The returned pair is (result, updated history). -/
def read_line_terminal (fileHist : Int → String)
    (tabComp : Nat → RWriter → RWriter) (keys : List Key)
    (history : List String) : Option String × List String :=
  let w0 : RWriter := { chars := [], chPtr := 0, histPtr := (history.length : Int) }
  match readKeys fileHist tabComp history keys w0 0 with
  | LoopResult.interrupted _ => (none, history)
  | LoopResult.finished w =>
    let ans : String := String.mk w.chars
    if ans.length ≠ 0 then (some (ans ++ "\n"), history ++ [ans])
    else (some (ans ++ "\n"), history)

/-- No newline character occurs in the character list. -/
def noNL (cs : List Char) : Prop := '\n' ∉ cs

/-- A concrete variable table holding only `? = "0"`, used to instantiate the
execution-protocol theorems. -/
def conf0 : ShellCore :=
  ⟨fun k => if k = "?" then some "0" else none⟩

/-- A concrete parser family used to instantiate the dispatcher theorems:
every keyword-led variant fails without moving the cursor and the
simple-command parser consumes the whole input, returning its length. -/
def trivialParsers : VariantParsers Nat Nat Nat Nat Nat Nat Nat Nat where
  commandIf := fun f => (none, f)
  commandWhile := fun f => (none, f)
  commandCase := fun f => (none, f)
  commandParen := fun _ f => (none, f)
  commandDoubleParen := fun _ f => (none, f)
  commandBrace := fun f => (none, f)
  functionDefinition := fun f => (none, f)
  simpleCommand := fun f => (some f.chars.length, Feeder.mk [])

/-! ## Theorems: the execution protocol -/

/-- C2: for every command node whose `no_connection()` is true (the trait
default), `exec` runs `exec_elems` directly in the current process and
returns; no fork occurs. -/
theorem exec_no_connection_runs_in_process (fr : ForkResult)
    (childIo : Except String Unit) (conf : ShellCore) (closeOk : Bool) :
    exec true fr childIo conf closeOk = [Event.execElems] ∧
    hasFork (exec true fr childIo conf closeOk) = false :=
  ⟨rfl, rfl⟩

/-- C3: in a forked child whose `set_child_io` fails, the child reports the
error on standard error and terminates with status 1, never running
`exec_elems`; the parent's trace does not depend on the child's wiring
result. -/
theorem exec_child_io_error_reports_and_exits (s : String) (conf : ShellCore)
    (closeOk : Bool) :
    exec false ForkResult.child (Except.error s) conf closeOk =
      [Event.forkCall, Event.setSignals, Event.setGroup, Event.setChildIo,
       Event.eprintln s, Event.exit 1] ∧
    hasExecElems (exec false ForkResult.child (Except.error s) conf closeOk) = false ∧
    (exec false ForkResult.child (Except.error s) conf closeOk).getLast? =
      some (Event.exit 1) ∧
    (∀ pid : Int,
      exec false (ForkResult.parent pid) (Except.error s) conf closeOk =
        exec false (ForkResult.parent pid) (Except.ok ()) conf closeOk) :=
  ⟨rfl, rfl, rfl, fun _ => rfl⟩

/-- C4: in a forked child whose `set_child_io` succeeds, the child performs,
in order: signal reset, process-group join, descriptor wiring, `exec_elems`,
closing descriptor 1, and a final exit carrying the integer value of the
shared variable `?`. -/
theorem exec_child_success_order (s : String) (n : Int) (conf : ShellCore)
    (hq : conf.vars "?" = some s) (hn : parseI32 s = some n) :
    exec false ForkResult.child (Except.ok ()) conf true =
      [Event.forkCall, Event.setSignals, Event.setGroup, Event.setChildIo,
       Event.execElems, Event.closeFd 1, Event.exit n] := by
  simp [exec, hq, hn]

/-- Witness for C4 at a concrete variable table holding `? = "0"`. -/
theorem exec_child_success_order_witness :
    conf0.vars "?" = some "0" ∧ parseI32 "0" = some 0 ∧
    exec false ForkResult.child (Except.ok ()) conf0 true =
      [Event.forkCall, Event.setSignals, Event.setGroup, Event.setChildIo,
       Event.execElems, Event.closeFd 1, Event.exit 0] :=
  ⟨rfl, rfl, exec_child_success_order "0" 0 conf0 rfl rfl⟩

/-- C5: a failed `fork()` panics, aborting the whole interpreter process; in
particular no exit status is produced and no pid is recorded, so the failure
is not surfaced as an ordinary command result. -/
theorem exec_fork_failure_aborts (e : String) (childIo : Except String Unit)
    (conf : ShellCore) (closeOk : Bool) :
    exec false (ForkResult.err e) childIo conf closeOk =
      [Event.forkCall, Event.panicked ("Failed to fork. " ++ e)] ∧
    hasExit (exec false (ForkResult.err e) childIo conf closeOk) = false ∧
    recordedPid (exec false (ForkResult.err e) childIo conf closeOk) = none ∧
    endsInPanic (exec false (ForkResult.err e) childIo conf closeOk) = true :=
  ⟨rfl, rfl, rfl, rfl⟩

/-- C8: whenever `exec` actually returns to its caller (its trace has neither
an `exit` nor a panic), exactly one of the two holds: a pid was recorded (the
connected/parent case, where `exec_elems` did not run in this process) or the
body ran in the current process with no fork and no recorded pid.  A recorded
pid is always the forked child's. -/
theorem exec_returns_pid_xor_in_process (nc : Bool) (fr : ForkResult)
    (childIo : Except String Unit) (conf : ShellCore) (closeOk : Bool)
    (hx : hasExit (exec nc fr childIo conf closeOk) = false)
    (hp : hasPanic (exec nc fr childIo conf closeOk) = false) :
    (((recordedPid (exec nc fr childIo conf closeOk)).isSome = true ∧
        hasExecElems (exec nc fr childIo conf closeOk) = false) ∨
      (recordedPid (exec nc fr childIo conf closeOk) = none ∧
        hasExecElems (exec nc fr childIo conf closeOk) = true ∧
        hasFork (exec nc fr childIo conf closeOk) = false)) ∧
    (∀ p : Int, recordedPid (exec nc fr childIo conf closeOk) = some p →
      fr = ForkResult.parent p) := by
  cases nc with
  | true =>
    refine ⟨Or.inr ⟨rfl, rfl, rfl⟩, ?_⟩
    intro p h
    simp [exec, recordedPid] at h
  | false =>
    cases fr with
    | child =>
      exfalso
      cases childIo with
      | error s => simp [exec, hasExit] at hx
      | ok u =>
        cases closeOk with
        | false => simp [exec, hasPanic] at hp
        | true =>
          cases hv : conf.vars "?" with
          | none => simp [exec, hasPanic, hv] at hp
          | some s =>
            cases hn : parseI32 s with
            | none => simp [exec, hasPanic, hv, hn] at hp
            | some n => simp [exec, hasExit, hv, hn] at hx
    | parent pid =>
      refine ⟨Or.inl ⟨rfl, rfl⟩, ?_⟩
      intro p h
      simp [exec, recordedPid] at h
      rw [h]
    | err e => simp [exec, hasPanic] at hp

/-- Witness for C8: a concrete parent-branch run records pid 42 and does not
run the body in-process. -/
theorem exec_returns_pid_xor_in_process_witness :
    hasExit (exec false (ForkResult.parent 42) (Except.ok ()) conf0 true) = false ∧
    hasPanic (exec false (ForkResult.parent 42) (Except.ok ()) conf0 true) = false ∧
    ((((recordedPid (exec false (ForkResult.parent 42) (Except.ok ()) conf0 true)).isSome = true ∧
        hasExecElems (exec false (ForkResult.parent 42) (Except.ok ()) conf0 true) = false) ∨
      (recordedPid (exec false (ForkResult.parent 42) (Except.ok ()) conf0 true) = none ∧
        hasExecElems (exec false (ForkResult.parent 42) (Except.ok ()) conf0 true) = true ∧
        hasFork (exec false (ForkResult.parent 42) (Except.ok ()) conf0 true) = false)) ∧
    (∀ p : Int,
      recordedPid (exec false (ForkResult.parent 42) (Except.ok ()) conf0 true) = some p →
      ForkResult.parent 42 = ForkResult.parent p)) :=
  ⟨rfl, rfl,
    exec_returns_pid_xor_in_process false (ForkResult.parent 42) (Except.ok ())
      conf0 true rfl rfl⟩

/-- C9: after `exec_elems`, the child reaches a normal `exit` precisely when
`close(1)` succeeds and the variable `?` exists and parses as a signed 32-bit
integer; in every other case it panics instead. -/
theorem exec_child_exit_iff_wellformed_status (conf : ShellCore) (closeOk : Bool) :
    endsInExit (exec false ForkResult.child (Except.ok ()) conf closeOk) =
      childExitCond conf closeOk ∧
    endsInPanic (exec false ForkResult.child (Except.ok ()) conf closeOk) =
      !(childExitCond conf closeOk) := by
  cases closeOk with
  | false => exact ⟨rfl, rfl⟩
  | true =>
    cases hv : conf.vars "?" with
    | none => simp [exec, endsInExit, endsInPanic, childExitCond, hv]
    | some s =>
      cases hn : parseI32 s with
      | none => simp [exec, endsInExit, endsInPanic, childExitCond, hv, hn]
      | some n => simp [exec, endsInExit, endsInPanic, childExitCond, hv, hn]

/-! ## Theorems: the interactive loop -/

/-- C6, counterexample: when the parse dispatcher returns none, the loop body
of `fn main` does not continue with the next line — it panics (with an empty
message), terminating the interpreter. -/
theorem mainIteration_parse_failure_panics :
    mainIteration (none : Option Unit) = IterationResult.panicked "" ∧
    mainIteration (none : Option Unit) ≠ IterationResult.continued := by
  exact ⟨rfl, by decide⟩

/-- C6, amended: after a command-level failure (the line parsed and was
executed) the loop continues accepting input, but a parse failure panics and
terminates the interpreter rather than discarding the line. -/
theorem mainIteration_amended {α : Type} :
    (∀ x : α, mainIteration (some x) = IterationResult.continued) ∧
    mainIteration (none : Option α) = IterationResult.panicked "" :=
  ⟨fun _ => rfl, rfl⟩

/-! ## Theorems: the parse dispatcher -/

/-- A failing parser that restores the cursor returns exactly `(none, f)`. -/
theorem fail_pair {α : Type} (p : Feeder → Option α × Feeder)
    (hp : restoresOnFail p) (f : Feeder) (h : (p f).1 = none) :
    p f = (none, f) := by
  have h2 : (p f).2 = f := hp f h
  have he : p f = ((p f).1, (p f).2) := rfl
  rw [he, h, h2]

/-- Under the cursor-restoration contract, the dispatcher is equivalent to
querying every variant parser on the original input in the fixed source
order and taking the first success. -/
theorem parse_eq_ordered {α β γ δ ε ζ η θ : Type}
    (P : VariantParsers α β γ δ ε ζ η θ) (hP : allRestore P) (text : Feeder) :
    parse P text =
      match (P.commandIf text).1 with
      | some a => (some (BoxedCommand.cIf a), (P.commandIf text).2)
      | none =>
      match (P.commandWhile text).1 with
      | some a => (some (BoxedCommand.cWhile a), (P.commandWhile text).2)
      | none =>
      match (P.commandCase text).1 with
      | some a => (some (BoxedCommand.cCase a), (P.commandCase text).2)
      | none =>
      match (P.commandParen false text).1 with
      | some a => (some (BoxedCommand.cParen a), (P.commandParen false text).2)
      | none =>
      match (P.commandDoubleParen false text).1 with
      | some a => (some (BoxedCommand.cDoubleParen a), (P.commandDoubleParen false text).2)
      | none =>
      match (P.commandBrace text).1 with
      | some a => (some (BoxedCommand.cBrace a), (P.commandBrace text).2)
      | none =>
      match (P.functionDefinition text).1 with
      | some a => (some (BoxedCommand.cFunctionDefinition a), (P.functionDefinition text).2)
      | none =>
      match (P.simpleCommand text).1 with
      | some a => (some (BoxedCommand.cSimple a), (P.simpleCommand text).2)
      | none => (none, text) := by
  obtain ⟨r1, r2, r3, r4, r5, r6, r7, r8⟩ := hP
  rcases hq1 : P.commandIf text with ⟨o1, t1⟩
  cases o1 with
  | some a => simp [parse, hq1]
  | none =>
  have e1 : t1 = text := by have h := r1 text; rw [hq1] at h; exact h rfl
  rw [e1] at hq1 ⊢
  rcases hq2 : P.commandWhile text with ⟨o2, t2⟩
  cases o2 with
  | some a => simp [parse, hq1, hq2]
  | none =>
  have e2 : t2 = text := by have h := r2 text; rw [hq2] at h; exact h rfl
  rw [e2] at hq2 ⊢
  rcases hq3 : P.commandCase text with ⟨o3, t3⟩
  cases o3 with
  | some a => simp [parse, hq1, hq2, hq3]
  | none =>
  have e3 : t3 = text := by have h := r3 text; rw [hq3] at h; exact h rfl
  rw [e3] at hq3 ⊢
  rcases hq4 : P.commandParen false text with ⟨o4, t4⟩
  cases o4 with
  | some a => simp [parse, hq1, hq2, hq3, hq4]
  | none =>
  have e4 : t4 = text := by have h := r4 text; rw [hq4] at h; exact h rfl
  rw [e4] at hq4 ⊢
  rcases hq5 : P.commandDoubleParen false text with ⟨o5, t5⟩
  cases o5 with
  | some a => simp [parse, hq1, hq2, hq3, hq4, hq5]
  | none =>
  have e5 : t5 = text := by have h := r5 text; rw [hq5] at h; exact h rfl
  rw [e5] at hq5 ⊢
  rcases hq6 : P.commandBrace text with ⟨o6, t6⟩
  cases o6 with
  | some a => simp [parse, hq1, hq2, hq3, hq4, hq5, hq6]
  | none =>
  have e6 : t6 = text := by have h := r6 text; rw [hq6] at h; exact h rfl
  rw [e6] at hq6 ⊢
  rcases hq7 : P.functionDefinition text with ⟨o7, t7⟩
  cases o7 with
  | some a => simp [parse, hq1, hq2, hq3, hq4, hq5, hq6, hq7]
  | none =>
  have e7 : t7 = text := by have h := r7 text; rw [hq7] at h; exact h rfl
  rw [e7] at hq7 ⊢
  rcases hq8 : P.simpleCommand text with ⟨o8, t8⟩
  cases o8 with
  | some a => simp [parse, hq1, hq2, hq3, hq4, hq5, hq6, hq7, hq8]
  | none =>
  have e8 : t8 = text := by have h := r8 text; rw [hq8] at h; exact h rfl
  rw [e8] at hq8 ⊢
  simp [parse, hq1, hq2, hq3, hq4, hq5, hq6, hq7, hq8]

/-- C1: the dispatcher tries the variant parsers in exactly the fixed order
if, while, case, subshell, double-paren, brace, function definition, simple
command; the first success is returned boxed as a command node, and the
result is none exactly when every variant parser fails. -/
theorem parse_dispatch_fixed_order {α β γ δ ε ζ η θ : Type}
    (P : VariantParsers α β γ δ ε ζ η θ) (hP : allRestore P) (text : Feeder) :
    ((parse P text).1 = none ↔
      ((P.commandIf text).1 = none ∧ (P.commandWhile text).1 = none ∧
       (P.commandCase text).1 = none ∧ (P.commandParen false text).1 = none ∧
       (P.commandDoubleParen false text).1 = none ∧
       (P.commandBrace text).1 = none ∧
       (P.functionDefinition text).1 = none ∧
       (P.simpleCommand text).1 = none)) ∧
    (∀ x t, P.commandIf text = (some x, t) →
      parse P text = (some (BoxedCommand.cIf x), t)) ∧
    ((P.commandIf text).1 = none →
      ∀ x t, P.commandWhile text = (some x, t) →
        parse P text = (some (BoxedCommand.cWhile x), t)) ∧
    ((P.commandIf text).1 = none → (P.commandWhile text).1 = none →
      ∀ x t, P.commandCase text = (some x, t) →
        parse P text = (some (BoxedCommand.cCase x), t)) ∧
    ((P.commandIf text).1 = none → (P.commandWhile text).1 = none →
      (P.commandCase text).1 = none →
      ∀ x t, P.commandParen false text = (some x, t) →
        parse P text = (some (BoxedCommand.cParen x), t)) ∧
    ((P.commandIf text).1 = none → (P.commandWhile text).1 = none →
      (P.commandCase text).1 = none → (P.commandParen false text).1 = none →
      ∀ x t, P.commandDoubleParen false text = (some x, t) →
        parse P text = (some (BoxedCommand.cDoubleParen x), t)) ∧
    ((P.commandIf text).1 = none → (P.commandWhile text).1 = none →
      (P.commandCase text).1 = none → (P.commandParen false text).1 = none →
      (P.commandDoubleParen false text).1 = none →
      ∀ x t, P.commandBrace text = (some x, t) →
        parse P text = (some (BoxedCommand.cBrace x), t)) ∧
    ((P.commandIf text).1 = none → (P.commandWhile text).1 = none →
      (P.commandCase text).1 = none → (P.commandParen false text).1 = none →
      (P.commandDoubleParen false text).1 = none →
      (P.commandBrace text).1 = none →
      ∀ x t, P.functionDefinition text = (some x, t) →
        parse P text = (some (BoxedCommand.cFunctionDefinition x), t)) ∧
    ((P.commandIf text).1 = none → (P.commandWhile text).1 = none →
      (P.commandCase text).1 = none → (P.commandParen false text).1 = none →
      (P.commandDoubleParen false text).1 = none →
      (P.commandBrace text).1 = none → (P.functionDefinition text).1 = none →
      ∀ x t, P.simpleCommand text = (some x, t) →
        parse P text = (some (BoxedCommand.cSimple x), t)) := by
  have hord := parse_eq_ordered P hP text
  refine ⟨?_, ?_, ?_, ?_, ?_, ?_, ?_, ?_, ?_⟩
  · rw [hord]
    cases h1 : (P.commandIf text).1 with
    | some a => simp [h1]
    | none =>
    cases h2 : (P.commandWhile text).1 with
    | some a => simp [h1, h2]
    | none =>
    cases h3 : (P.commandCase text).1 with
    | some a => simp [h1, h2, h3]
    | none =>
    cases h4 : (P.commandParen false text).1 with
    | some a => simp [h1, h2, h3, h4]
    | none =>
    cases h5 : (P.commandDoubleParen false text).1 with
    | some a => simp [h1, h2, h3, h4, h5]
    | none =>
    cases h6 : (P.commandBrace text).1 with
    | some a => simp [h1, h2, h3, h4, h5, h6]
    | none =>
    cases h7 : (P.functionDefinition text).1 with
    | some a => simp [h1, h2, h3, h4, h5, h6, h7]
    | none =>
    cases h8 : (P.simpleCommand text).1 with
    | some a => simp [h1, h2, h3, h4, h5, h6, h7, h8]
    | none => simp [h1, h2, h3, h4, h5, h6, h7, h8]
  · intro x t h
    rw [hord]; simp [h]
  · intro h1 x t h
    rw [hord]; simp [h1, h]
  · intro h1 h2 x t h
    rw [hord]; simp [h1, h2, h]
  · intro h1 h2 h3 x t h
    rw [hord]; simp [h1, h2, h3, h]
  · intro h1 h2 h3 h4 x t h
    rw [hord]; simp [h1, h2, h3, h4, h]
  · intro h1 h2 h3 h4 h5 x t h
    rw [hord]; simp [h1, h2, h3, h4, h5, h]
  · intro h1 h2 h3 h4 h5 h6 x t h
    rw [hord]; simp [h1, h2, h3, h4, h5, h6, h]
  · intro h1 h2 h3 h4 h5 h6 h7 x t h
    rw [hord]; simp [h1, h2, h3, h4, h5, h6, h7, h]

/-- Witness for C1: with seven failing variants, `parse` falls through to the
simple-command parser, exactly as the dispatch order requires. -/
theorem parse_dispatch_fixed_order_witness :
    parse trivialParsers (Feeder.mk ['l', 's']) =
      (some (BoxedCommand.cSimple 2), Feeder.mk []) := by
  have hP : allRestore trivialParsers :=
    ⟨fun _ _ => rfl, fun _ _ => rfl, fun _ _ => rfl, fun _ _ => rfl,
     fun _ _ => rfl, fun _ _ => rfl, fun _ _ => rfl, fun _ h => nomatch h⟩
  exact (parse_dispatch_fixed_order trivialParsers hP
      (Feeder.mk ['l', 's'])).2.2.2.2.2.2.2.2 rfl rfl rfl rfl rfl rfl rfl 2
      (Feeder.mk []) rfl

/-- C7: a variant parser following the spec's contract restores the cursor on
every input it fails to match, even after speculative lookahead
consumption. -/
theorem variant_parser_restores_on_fail {α : Type} (lookahead : Feeder → Feeder)
    (tryMatch : Feeder → Option (α × Feeder)) :
    restoresOnFail (specParser lookahead tryMatch) := by
  intro f h
  unfold specParser at h ⊢
  cases ht : tryMatch (lookahead f) with
  | none => rfl
  | some p =>
    rw [ht] at h
    obtain ⟨a, t⟩ := p
    simp at h

/-- Witness for C7: a concrete failing parser leaves the feeder `"if"`
untouched. -/
theorem variant_parser_restores_on_fail_witness :
    (specParser id (fun _ => (none : Option (Nat × Feeder)))
      (Feeder.mk ['i', 'f'])).1 = none ∧
    (specParser id (fun _ => (none : Option (Nat × Feeder)))
      (Feeder.mk ['i', 'f'])).2 = Feeder.mk ['i', 'f'] :=
  ⟨rfl, variant_parser_restores_on_fail id (fun _ => none)
    (Feeder.mk ['i', 'f']) rfl⟩

/-! ## Theorems: the terminal line reader -/

/-- The operation `call_history` only ever installs a history entry, a history-file line, or
the empty string, so it keeps the buffer newline-free. -/
theorem noNL_callHistory (fileHist : Int → String) (history : List String)
    (w : RWriter) (inc : Int)
    (Hh : ∀ s ∈ history, noNL s.data) (Hf : ∀ i, noNL (fileHist i).data) :
    noNL (callHistory fileHist history w inc).chars := by
  simp only [callHistory]
  split
  · exact Hf _
  · split
    · next h1 h2 =>
      have hlt : (w.histPtr + inc).toNat < history.length := by omega
      show noNL (history.getD (w.histPtr + inc).toNat "").data
      rw [List.getD_eq_getElem _ _ hlt]
      exact Hh _ (List.getElem_mem hlt)
    · intro hm
      cases hm

/-- The operation `Writer::remove` deletes one character, so it keeps the buffer
newline-free. -/
theorem noNL_remove (w : RWriter) (h : noNL w.chars) : noNL (remove w).chars := by
  unfold remove
  split
  · exact h
  · intro hm
    exact h (List.mem_of_mem_eraseIdx hm)

/-- The operation `Writer::insert` of a non-newline character keeps the buffer
newline-free. -/
theorem noNL_insertChar (w : RWriter) (c : Char) (hc : c ≠ '\n')
    (h : noNL w.chars) : noNL (insertChar w c).chars := by
  unfold insertChar
  split
  · show noNL (w.chars ++ [c])
    intro hm
    rcases List.mem_append.mp hm with hm0 | hm0
    · exact h hm0
    · rw [List.mem_singleton] at hm0
      exact hc hm0.symm
  · show noNL (w.chars.take w.chPtr ++ (c :: w.chars.drop w.chPtr))
    intro hm
    rcases List.mem_append.mp hm with hm0 | hm0
    · exact h (List.mem_of_mem_take hm0)
    · rcases List.mem_cons.mp hm0 with he | hm1
      · exact hc he.symm
      · exact h (List.mem_of_mem_drop hm1)

/-- Every key dispatched inside the loop (so never Enter) keeps the buffer
newline-free, provided the history, the history file and the completion
routine only supply newline-free text. -/
theorem noNL_applyKey (fileHist : Int → String)
    (tabComp : Nat → RWriter → RWriter) (history : List String) (tabNum : Nat)
    (w : RWriter) (k : Key)
    (Hh : ∀ s ∈ history, noNL s.data) (Hf : ∀ i, noNL (fileHist i).data)
    (Ht : ∀ n v, noNL v.chars → noNL (tabComp n v).chars)
    (hk : ∀ c, k = Key.charKey c → c ≠ '\n')
    (h : noNL w.chars) :
    noNL (applyKey fileHist tabComp history tabNum w k).chars := by
  cases k with
  | ctrlA => exact h
  | ctrlB => exact h
  | ctrlC => exact h
  | ctrlE => exact h
  | ctrlF => exact h
  | up => exact noNL_callHistory fileHist history w (-1) Hh Hf
  | down => exact noNL_callHistory fileHist history w 1 Hh Hf
  | left => exact h
  | right => exact h
  | backspace => exact noNL_remove w h
  | charKey c =>
    show noNL (if c = '\t' then tabComp (tabNum + 1) w else insertChar w c).chars
    by_cases hct : c = '\t'
    · rw [if_pos hct]
      exact Ht (tabNum + 1) w h
    · rw [if_neg hct]
      exact noNL_insertChar w c (hk c rfl) h
  | otherKey => exact h

/-- Invariant of the key loop: starting from a newline-free buffer, a
finishing run ends with a newline-free buffer, and an interrupted run ends
with an empty buffer. -/
theorem readKeys_preserves (fileHist : Int → String)
    (tabComp : Nat → RWriter → RWriter) (history : List String)
    (Hh : ∀ s ∈ history, noNL s.data) (Hf : ∀ i, noNL (fileHist i).data)
    (Ht : ∀ n v, noNL v.chars → noNL (tabComp n v).chars) :
    ∀ (keys : List Key) (w : RWriter) (tabNum : Nat), noNL w.chars →
      (∀ w2, readKeys fileHist tabComp history keys w tabNum =
          LoopResult.finished w2 → noNL w2.chars) ∧
      (∀ w2, readKeys fileHist tabComp history keys w tabNum =
          LoopResult.interrupted w2 → w2.chars = []) := by
  intro keys
  induction keys with
  | nil =>
    intro w tabNum hw
    refine ⟨?_, ?_⟩
    · intro w2 h2
      simp only [readKeys, LoopResult.finished.injEq] at h2
      subst h2
      exact hw
    · intro w2 h2
      cases h2
  | cons k ks ih =>
    intro w tabNum hw
    cases k with
    | ctrlC =>
      refine ⟨?_, ?_⟩
      · intro w2 h2
        cases h2
      · intro w2 h2
        simp only [readKeys, LoopResult.interrupted.injEq] at h2
        subst h2
        rfl
    | charKey c =>
      by_cases hc : c = '\n'
      · subst hc
        refine ⟨?_, ?_⟩
        · intro w2 h2
          simp [readKeys] at h2
          subst h2
          exact hw
        · intro w2 h2
          simp [readKeys] at h2
      · have hk : ∀ c2, Key.charKey c = Key.charKey c2 → c2 ≠ '\n' := by
          intro c2 he
          cases he
          exact hc
        have hw2 := noNL_applyKey fileHist tabComp history tabNum w
          (Key.charKey c) Hh Hf Ht hk hw
        have hrec := ih (applyKey fileHist tabComp history tabNum w
          (Key.charKey c)) (if c = '\t' then tabNum + 1 else 0) hw2
        refine ⟨?_, ?_⟩
        · intro w2 h2
          simp only [readKeys, if_neg hc] at h2
          exact hrec.1 w2 h2
        · intro w2 h2
          simp only [readKeys, if_neg hc] at h2
          exact hrec.2 w2 h2
    | ctrlA =>
      have hrec := ih (applyKey fileHist tabComp history tabNum w Key.ctrlA) 0
        (noNL_applyKey fileHist tabComp history tabNum w Key.ctrlA Hh Hf Ht
          (by intro c he; cases he) hw)
      refine ⟨fun w2 h2 => hrec.1 w2 (by simpa only [readKeys] using h2),
        fun w2 h2 => hrec.2 w2 (by simpa only [readKeys] using h2)⟩
    | ctrlB =>
      have hrec := ih (applyKey fileHist tabComp history tabNum w Key.ctrlB) 0
        (noNL_applyKey fileHist tabComp history tabNum w Key.ctrlB Hh Hf Ht
          (by intro c he; cases he) hw)
      refine ⟨fun w2 h2 => hrec.1 w2 (by simpa only [readKeys] using h2),
        fun w2 h2 => hrec.2 w2 (by simpa only [readKeys] using h2)⟩
    | ctrlE =>
      have hrec := ih (applyKey fileHist tabComp history tabNum w Key.ctrlE) 0
        (noNL_applyKey fileHist tabComp history tabNum w Key.ctrlE Hh Hf Ht
          (by intro c he; cases he) hw)
      refine ⟨fun w2 h2 => hrec.1 w2 (by simpa only [readKeys] using h2),
        fun w2 h2 => hrec.2 w2 (by simpa only [readKeys] using h2)⟩
    | ctrlF =>
      have hrec := ih (applyKey fileHist tabComp history tabNum w Key.ctrlF) 0
        (noNL_applyKey fileHist tabComp history tabNum w Key.ctrlF Hh Hf Ht
          (by intro c he; cases he) hw)
      refine ⟨fun w2 h2 => hrec.1 w2 (by simpa only [readKeys] using h2),
        fun w2 h2 => hrec.2 w2 (by simpa only [readKeys] using h2)⟩
    | up =>
      have hrec := ih (applyKey fileHist tabComp history tabNum w Key.up) 0
        (noNL_applyKey fileHist tabComp history tabNum w Key.up Hh Hf Ht
          (by intro c he; cases he) hw)
      refine ⟨fun w2 h2 => hrec.1 w2 (by simpa only [readKeys] using h2),
        fun w2 h2 => hrec.2 w2 (by simpa only [readKeys] using h2)⟩
    | down =>
      have hrec := ih (applyKey fileHist tabComp history tabNum w Key.down) 0
        (noNL_applyKey fileHist tabComp history tabNum w Key.down Hh Hf Ht
          (by intro c he; cases he) hw)
      refine ⟨fun w2 h2 => hrec.1 w2 (by simpa only [readKeys] using h2),
        fun w2 h2 => hrec.2 w2 (by simpa only [readKeys] using h2)⟩
    | left =>
      have hrec := ih (applyKey fileHist tabComp history tabNum w Key.left) 0
        (noNL_applyKey fileHist tabComp history tabNum w Key.left Hh Hf Ht
          (by intro c he; cases he) hw)
      refine ⟨fun w2 h2 => hrec.1 w2 (by simpa only [readKeys] using h2),
        fun w2 h2 => hrec.2 w2 (by simpa only [readKeys] using h2)⟩
    | right =>
      have hrec := ih (applyKey fileHist tabComp history tabNum w Key.right) 0
        (noNL_applyKey fileHist tabComp history tabNum w Key.right Hh Hf Ht
          (by intro c he; cases he) hw)
      refine ⟨fun w2 h2 => hrec.1 w2 (by simpa only [readKeys] using h2),
        fun w2 h2 => hrec.2 w2 (by simpa only [readKeys] using h2)⟩
    | backspace =>
      have hrec := ih (applyKey fileHist tabComp history tabNum w Key.backspace) 0
        (noNL_applyKey fileHist tabComp history tabNum w Key.backspace Hh Hf Ht
          (by intro c he; cases he) hw)
      refine ⟨fun w2 h2 => hrec.1 w2 (by simpa only [readKeys] using h2),
        fun w2 h2 => hrec.2 w2 (by simpa only [readKeys] using h2)⟩
    | otherKey =>
      have hrec := ih (applyKey fileHist tabComp history tabNum w Key.otherKey) 0
        (noNL_applyKey fileHist tabComp history tabNum w Key.otherKey Hh Hf Ht
          (by intro c he; cases he) hw)
      refine ⟨fun w2 h2 => hrec.1 w2 (by simpa only [readKeys] using h2),
        fun w2 h2 => hrec.2 w2 (by simpa only [readKeys] using h2)⟩

/-- C10: when `read_line_terminal` returns a line, the string is the edited
buffer followed by exactly one appended newline (the buffer itself is
newline-free), and the buffer is pushed onto the history exactly when it is
non-empty; a Ctrl-C interrupt instead clears the buffer, returns none, and
leaves the history untouched.  The hypotheses say that the pre-existing
history, the history file, and the completion routine supply only
newline-free text. -/
theorem read_line_terminal_newline_and_history (fileHist : Int → String)
    (tabComp : Nat → RWriter → RWriter) (keys : List Key)
    (history : List String)
    (Hh : ∀ s ∈ history, noNL s.data)
    (Hf : ∀ i, noNL (fileHist i).data)
    (Ht : ∀ n v, noNL v.chars → noNL (tabComp n v).chars) :
    (∀ s hist2,
      read_line_terminal fileHist tabComp keys history = (some s, hist2) →
      ∃ cs : List Char, s = String.mk (cs ++ ['\n']) ∧ noNL cs ∧
        hist2 = (if cs = [] then history else history ++ [String.mk cs])) ∧
    (∀ hist2,
      read_line_terminal fileHist tabComp keys history = (none, hist2) →
      hist2 = history ∧
      ∃ w : RWriter,
        readKeys fileHist tabComp history keys
            { chars := [], chPtr := 0, histPtr := (history.length : Int) } 0 =
          LoopResult.interrupted w ∧ w.chars = []) := by
  have hpres := readKeys_preserves fileHist tabComp history Hh Hf Ht keys
    { chars := [], chPtr := 0, histPtr := (history.length : Int) } 0
    (by intro hm; cases hm)
  constructor
  · intro s hist2 hres
    cases hr : readKeys fileHist tabComp history keys
        { chars := [], chPtr := 0, histPtr := (history.length : Int) } 0 with
    | interrupted w =>
      simp only [read_line_terminal, hr] at hres
      exact Option.noConfusion (congrArg Prod.fst hres)
    | finished w =>
      have hw : noNL w.chars := hpres.1 w hr
      simp only [read_line_terminal, hr] at hres
      refine ⟨w.chars, ?_, hw, ?_⟩
      · split at hres
        · exact (Option.some.inj (congrArg Prod.fst hres)).symm
        · exact (Option.some.inj (congrArg Prod.fst hres)).symm
      · split at hres
        · next hlen =>
          have hne : ¬ w.chars = [] := by
            intro h0
            apply hlen
            rw [show String.mk w.chars = "" from by rw [h0]]
            rfl
          rw [if_neg hne]
          exact (congrArg Prod.snd hres).symm
        · next hlen =>
          have he : w.chars = [] := by
            have h0 : (String.mk w.chars).length = 0 := by
              by_contra hx
              exact hlen hx
            exact List.length_eq_zero.mp h0
          rw [if_pos he]
          exact (congrArg Prod.snd hres).symm
  · intro hist2 hres
    cases hr : readKeys fileHist tabComp history keys
        { chars := [], chPtr := 0, histPtr := (history.length : Int) } 0 with
    | interrupted w =>
      simp only [read_line_terminal, hr] at hres
      exact ⟨(congrArg Prod.snd hres).symm, w, rfl, hpres.2 w hr⟩
    | finished w =>
      simp only [read_line_terminal, hr] at hres
      split at hres
      · exact Option.noConfusion (congrArg Prod.fst hres)
      · exact Option.noConfusion (congrArg Prod.fst hres)

/-- Witness for C10: typing `h`, `i`, Enter with history `["ls"]` yields
`"hi\n"` (one appended newline) and pushes `"hi"` onto the history. -/
theorem read_line_terminal_newline_and_history_witness :
    ∃ cs : List Char, "hi\n" = String.mk (cs ++ ['\n']) ∧ noNL cs ∧
      (["ls", "hi"] : List String) =
        (if cs = [] then ["ls"] else ["ls"] ++ [String.mk cs]) :=
  (read_line_terminal_newline_and_history (fun _ => "") (fun _ v => v)
      [Key.charKey 'h', Key.charKey 'i', Key.charKey '\n'] ["ls"]
      (by intro s hs hm
          rw [List.mem_singleton] at hs
          subst hs
          exact absurd hm (by decide))
      (by intro i hm; cases hm)
      (fun _ _ h => h)).1 "hi\n" ["ls", "hi"] (by decide)
